import Mathlib

/-!
# Verification of the resume-review application (`app.py`)

This file gives a shallow embedding in Lean 4 of the pure core of the
application: the model-reply JSON extraction (`parse_json_from_model`, backed
by a model of Python's strict `json.loads`), the static fallback feedback
payload (`fallback_mock_feedback`), the prompt builder
(`generate_prompt_for_llm`), the PDF text extractor
(`extract_text_from_pdf`, with the external PDF library abstracted as a
page-text oracle), the PDF renderer's line layout (`create_pdf_from_text`,
with Python's `textwrap.wrap` modelled at its default settings), and the
analyze-button orchestration (`analyze`, with the remote model abstracted as
a prompt-to-reply oracle).  Theorems about these definitions settle the
specification's testable properties.
-/

namespace ResumeReview

/-- The opening-brace character, written via its code point. -/
def lbrace : Char := Char.ofNat 123

/-- The closing-brace character, written via its code point. -/
def rbrace : Char := Char.ofNat 125

/-- The double-quote character. -/
def quoteChar : Char := Char.ofNat 34

/-- The backslash character. -/
def backslashChar : Char := Char.ofNat 92

/-- ASCII whitespace as recognised by Python's `str` methods and
`textwrap`: space, tab, newline, vertical tab, form feed, carriage return.
(Exotic Unicode whitespace is not modelled.) -/
def isWsChar (c : Char) : Bool :=
  c == ' ' || c == '\t' || c == '\n' || c == Char.ofNat 11 ||
    c == Char.ofNat 12 || c == '\r'

/-- JSON values as produced by Python's `json.loads`: `null`, booleans,
integer literals (Python `int`), float literals (modelled by their exact
rational value; IEEE-754 rounding is not modelled), the non-standard
constants `NaN`, `Infinity` and `-Infinity` that `json.loads` accepts by
default, strings, arrays, and objects as insertion-ordered key/value lists
with `dict` duplicate-key semantics. -/
inductive Json where
  | null : Json
  | bool (b : Bool) : Json
  | num (n : Int) : Json
  | flt (q : Rat) : Json
  | nan : Json
  | inf : Json
  | neginf : Json
  | str (s : String) : Json
  | arr (elems : List Json) : Json
  | obj (fields : List (String × Json)) : Json

/-- Python truthiness of a value returned by `json.loads`: `None`, `False`,
`0`, `0.0`, the empty string, the empty list and the empty dict are falsy;
everything else (including `NaN` and the infinities) is truthy. -/
def pyTruthy : Json → Bool
  | .null => false
  | .bool b => b
  | .num n => n != 0
  | .flt q => q != 0
  | .nan => true
  | .inf => true
  | .neginf => true
  | .str s => s != ""
  | .arr l => !l.isEmpty
  | .obj l => !l.isEmpty

/-! ## A model of Python's strict `json.loads`

The decoder follows CPython's `json` module: whitespace is ` \t\n\r`; values
are objects, arrays, strings, numbers, `null`/`true`/`false`, and the
default-accepted constants `NaN`/`Infinity`/`-Infinity`; strings reject
unescaped control characters (strict mode) and support the standard escapes
including `\uXXXX` with surrogate-pair combination; numbers follow
`NUMBER_RE` (`-?(0|[1-9]\d+|[1-9])(\.\d+)?([eE][+-]?\d+)?` in spirit);
trailing non-whitespace after the top-level value is an error.  Errors are
`none`. -/

/-- Skip the JSON whitespace characters space, tab, newline, carriage
return (CPython `json.decoder.WHITESPACE`). -/
def skipWs : List Char → List Char
  | [] => []
  | c :: rest =>
    if c == ' ' || c == '\t' || c == '\n' || c == '\r' then skipWs rest
    else c :: rest

/-- Value of a hexadecimal digit. -/
def hexVal : Char → Option Nat := fun c =>
  if '0' ≤ c ∧ c ≤ '9' then some (c.toNat - 48)
  else if 'a' ≤ c ∧ c ≤ 'f' then some (c.toNat - 87)
  else if 'A' ≤ c ∧ c ≤ 'F' then some (c.toNat - 55)
  else none

/-- Scan the body of a JSON string (opening quote already consumed),
accumulating decoded characters in reverse.  Mirrors CPython
`py_scanstring` with `strict=True`: unescaped characters below `0x20` are
rejected; `\uXXXX` escapes combine surrogate pairs (a lone surrogate, which
Python would keep as a lone surrogate code unit, is not representable in a
Lean `Char` and degrades to `Char.ofNat`'s default). -/
def scanStringGo : Nat → List Char → List Char → Option (String × List Char)
  | 0, _, _ => none
  | _ + 1, _, [] => none
  | fuel + 1, acc, c :: rest =>
    if c == quoteChar then some (String.mk acc.reverse, rest)
    else if c == backslashChar then
      match rest with
      | [] => none
      | e :: rest2 =>
        if e == quoteChar then scanStringGo fuel (quoteChar :: acc) rest2
        else if e == backslashChar then scanStringGo fuel (backslashChar :: acc) rest2
        else if e == '/' then scanStringGo fuel ('/' :: acc) rest2
        else if e == 'b' then scanStringGo fuel (Char.ofNat 8 :: acc) rest2
        else if e == 'f' then scanStringGo fuel (Char.ofNat 12 :: acc) rest2
        else if e == 'n' then scanStringGo fuel ('\n' :: acc) rest2
        else if e == 'r' then scanStringGo fuel ('\r' :: acc) rest2
        else if e == 't' then scanStringGo fuel ('\t' :: acc) rest2
        else if e == 'u' then
          match rest2 with
          | h1 :: h2 :: h3 :: h4 :: rest3 =>
            match hexVal h1, hexVal h2, hexVal h3, hexVal h4 with
            | some a, some b, some c3, some d =>
              let n := ((a * 16 + b) * 16 + c3) * 16 + d
              if 55296 ≤ n ∧ n ≤ 56319 then
                match rest3 with
                | e2 :: u2 :: g1 :: g2 :: g3 :: g4 :: rest4 =>
                  if e2 == backslashChar ∧ u2 == 'u' then
                    match hexVal g1, hexVal g2, hexVal g3, hexVal g4 with
                    | some a2, some b2, some c4, some d2 =>
                      let m := ((a2 * 16 + b2) * 16 + c4) * 16 + d2
                      if 56320 ≤ m ∧ m ≤ 57343 then
                        scanStringGo fuel
                          (Char.ofNat (65536 + (n - 55296) * 1024 + (m - 56320)) :: acc)
                          rest4
                      else scanStringGo fuel (Char.ofNat n :: acc) rest3
                    | _, _, _, _ => scanStringGo fuel (Char.ofNat n :: acc) rest3
                  else scanStringGo fuel (Char.ofNat n :: acc) rest3
                | _ => scanStringGo fuel (Char.ofNat n :: acc) rest3
              else scanStringGo fuel (Char.ofNat n :: acc) rest3
            | _, _, _, _ => none
          | _ => none
        else none
    else if c.toNat < 32 then none
    else scanStringGo fuel (c :: acc) rest

/-- Digits of the decimal expansion, most significant first. -/
def digitsToNat (ds : List Char) : Nat :=
  ds.foldl (fun acc c => acc * 10 + (c.toNat - 48)) 0

/-- Scan a JSON number starting at the head of the input, following
CPython's `NUMBER_RE`: optional minus, integer part `0` or
`[1-9][0-9]*`, optional fraction, optional exponent.  An integer literal
yields `Json.num`; a literal with a fraction or exponent yields `Json.flt`
with its exact rational value (IEEE-754 rounding of Python floats is not
modelled). -/
def scanNumber (cs : List Char) : Option (Json × List Char) :=
  let (neg, cs1) :=
    match cs with
    | c :: rest => if c == '-' then (true, rest) else (false, cs)
    | [] => (false, cs)
  match cs1 with
  | c :: _ =>
    if c.isDigit then
      let (intDs, cs2) :=
        if c == '0' then ([c], cs1.tail)
        else (cs1.takeWhile Char.isDigit, cs1.dropWhile Char.isDigit)
      let (fracDs, cs3) :=
        match cs2 with
        | c2 :: rest2 =>
          if c2 == '.' then
            let fs := rest2.takeWhile Char.isDigit
            if fs.isEmpty then (([] : List Char), cs2)
            else (fs, rest2.dropWhile Char.isDigit)
          else (([] : List Char), cs2)
        | [] => (([] : List Char), cs2)
      let (expSign, expDs, cs4) :=
        match cs3 with
        | e :: rest3 =>
          if e == 'e' || e == 'E' then
            let (sgn, rest4) :=
              match rest3 with
              | s :: r =>
                if s == '+' then ((1 : Int), r)
                else if s == '-' then ((-1 : Int), r)
                else ((1 : Int), rest3)
              | [] => ((1 : Int), rest3)
            let es := rest4.takeWhile Char.isDigit
            if es.isEmpty then ((1 : Int), ([] : List Char), cs3)
            else (sgn, es, rest4.dropWhile Char.isDigit)
          else ((1 : Int), ([] : List Char), cs3)
        | [] => ((1 : Int), ([] : List Char), cs3)
      if fracDs.isEmpty ∧ expDs.isEmpty then
        let n : Int := (digitsToNat intDs : Int)
        some (.num (if neg then -n else n), cs2)
      else
        let mant : Rat :=
          (digitsToNat intDs : Rat) +
            (digitsToNat fracDs : Rat) / ((10 : Rat) ^ fracDs.length)
        let e : Int := expSign * (digitsToNat expDs : Int)
        let q : Rat :=
          if 0 ≤ e then mant * (10 : Rat) ^ e.toNat
          else mant / (10 : Rat) ^ (-e).toNat
        some (.flt (if neg then -q else q), cs4)
    else none
  | [] => none

/-- Insert a key/value pair with Python `dict` semantics: an existing key
keeps its position and gets the new value; a new key is appended. -/
def objInsert : List (String × Json) → String → Json → List (String × Json)
  | [], k, v => [(k, v)]
  | (k', v') :: rest, k, v =>
    if k' = k then (k, v) :: rest else (k', v') :: objInsert rest k v

mutual

/-- Scan one JSON value at the head of the input (CPython `scan_once`).
`fuel` bounds the recursion depth; `json_loads` supplies enough fuel that
it never runs out. -/
def parseVal : Nat → List Char → Option (Json × List Char)
  | 0, _ => none
  | fuel + 1, cs =>
    match cs with
    | [] => none
    | c :: rest =>
      if c == quoteChar then
        (scanStringGo (rest.length + 1) [] rest).map (fun p => (.str p.1, p.2))
      else if c == lbrace then
        match skipWs rest with
        | [] => none
        | c2 :: rest2 =>
          if c2 == rbrace then some (.obj [], rest2)
          else parseObjRest fuel [] (c2 :: rest2)
      else if c == '[' then
        match skipWs rest with
        | [] => none
        | c2 :: rest2 =>
          if c2 == ']' then some (.arr [], rest2)
          else parseArrRest fuel [] (c2 :: rest2)
      else
        match cs with
        | 'n' :: 'u' :: 'l' :: 'l' :: r => some (.null, r)
        | 't' :: 'r' :: 'u' :: 'e' :: r => some (.bool true, r)
        | 'f' :: 'a' :: 'l' :: 's' :: 'e' :: r => some (.bool false, r)
        | 'N' :: 'a' :: 'N' :: r => some (.nan, r)
        | 'I' :: 'n' :: 'f' :: 'i' :: 'n' :: 'i' :: 't' :: 'y' :: r =>
          some (.inf, r)
        | '-' :: 'I' :: 'n' :: 'f' :: 'i' :: 'n' :: 'i' :: 't' :: 'y' :: r =>
          some (.neginf, r)
        | _ => scanNumber cs

/-- Scan the members of a JSON object starting at a key's opening quote
(CPython `JSONObject` loop), accumulating pairs with `dict` semantics. -/
def parseObjRest : Nat → List (String × Json) → List Char → Option (Json × List Char)
  | 0, _, _ => none
  | fuel + 1, acc, cs =>
    match cs with
    | [] => none
    | c :: rest =>
      if c == quoteChar then
        match scanStringGo (rest.length + 1) [] rest with
        | none => none
        | some (key, cs1) =>
          match skipWs cs1 with
          | [] => none
          | c2 :: cs2 =>
            if c2 == ':' then
              match parseVal fuel (skipWs cs2) with
              | none => none
              | some (v, cs3) =>
                let acc2 := objInsert acc key v
                match skipWs cs3 with
                | [] => none
                | c3 :: cs4 =>
                  if c3 == rbrace then some (.obj acc2, cs4)
                  else if c3 == ',' then parseObjRest fuel acc2 (skipWs cs4)
                  else none
            else none
      else none

/-- Scan the elements of a JSON array starting at an element's first
character (CPython `JSONArray` loop), accumulating elements in reverse. -/
def parseArrRest : Nat → List Json → List Char → Option (Json × List Char)
  | 0, _, _ => none
  | fuel + 1, acc, cs =>
    match parseVal fuel cs with
    | none => none
    | some (v, cs1) =>
      match skipWs cs1 with
      | [] => none
      | c :: cs2 =>
        if c == ']' then some (.arr (v :: acc).reverse, cs2)
        else if c == ',' then parseArrRest fuel (v :: acc) (skipWs cs2)
        else none

end

/-- Model of Python's `json.loads`: skip leading whitespace, scan one value,
require only whitespace afterwards; any error is `none`.  The fuel
`2 * length + 2` dominates the recursion depth (every two fuel decrements
consume at least one input character), so the scan never runs out of
fuel. -/
def json_loads (s : String) : Option Json :=
  let cs := skipWs s.data
  match parseVal (2 * cs.length + 2) cs with
  | some (v, rest) => if skipWs rest = [] then some v else none
  | none => none

/-! ## `parse_json_from_model` (app.py lines 64–73) -/

/-- Python `str.find`: index of the first occurrence of `c`, as an
`Option` in place of Python's `-1` sentinel. -/
def strFindIdx (text : String) (c : Char) : Option Nat :=
  text.data.findIdx? (· == c)

/-- Python `str.rfind`: index of the last occurrence of `c`, as an
`Option` in place of Python's `-1` sentinel. -/
def strRfindIdx (text : String) (c : Char) : Option Nat :=
  (text.data.reverse.findIdx? (· == c)).map (fun i => text.data.length - 1 - i)

/-- Python slice `text[a:b]` for code-point indices (empty when `b ≤ a`). -/
def pySlice (text : String) (a b : Nat) : String :=
  String.mk ((text.data.drop a).take (b - a))

/-- `parse_json_from_model(text)`: find the first `x7b` and the last `x7d`;
if either is absent return `None`; otherwise strictly decode the enclosed
substring, any decode error yielding `None` (the `try/except` around the
body). -/
def parse_json_from_model (text : String) : Option Json :=
  match strFindIdx text lbrace, strRfindIdx text rbrace with
  | some s, some e => json_loads (pySlice text s (e + 1))
  | some _, none => none
  | none, _ => none

/-! ## `fallback_mock_feedback` (app.py lines 75–91) -/

/-- The static fallback feedback payload.  Only `job_role` occurs in the
output (as the final element of `highlights`); `resume_text` and `job_desc`
are accepted and ignored, exactly as in the source. -/
def fallback_mock_feedback (resume_text job_role job_desc : String) : Json :=
  .obj
    [("skills", .arr [.str "communication", .str "teamwork", .str "problem solving"]),
     ("improvements", .arr
       [.str "Quantify achievements (use numbers/metrics).",
        .str "Use active verbs (Led, Built, Improved).",
        .str "Move education below experience if 3+ years work experience."]),
     ("tailored_examples", .arr
       [.str "Led a 3-person data team to build a recommendation engine that increased CTR by 12%.",
        .str "Improved ETL pipeline latency by 40% using optimized SQL and batch processing.",
        .str "Designed A/B tests and analyzed results to increase activation by 8%."]),
     ("scoring", .obj
       [("relevance", .num 7), ("clarity", .num 7), ("format", .num 6), ("overall", .num 7)]),
     ("improved_resume", .str "Header: Name | email\nSummary: Data-focused product manager...\nExperience: ...\nSkills: Python, SQL, ML, A/B testing"),
     ("highlights", .arr [.str "Python", .str "SQL", .str "A/B testing", .str job_role])]

/-- First-match association-list lookup (Python `dict` access on the
decoded object). -/
def lookupPairs : List (String × Json) → String → Option Json
  | [], _ => none
  | (k', v) :: rest, k => if k' = k then some v else lookupPairs rest k

/-- Look a key up in a JSON object value. -/
def objLookup (j : Json) (k : String) : Option Json :=
  match j with
  | .obj kvs => lookupPairs kvs k
  | _ => none

/-! ## `generate_prompt_for_llm` (app.py lines 37–53) -/

/-- The fixed instruction block of the prompt f-string, up to and including
`Role: `. -/
def promptIntro : String :=
  "\nYou are an expert career coach and resume editor. Output a JSON object with these keys:\n- skills: list of strings (missing keywords / skills relevant to the role)\n- improvements: list of short suggestions for wording, formatting, clarity\n- tailored_examples: list of 3 short edits (1-2 lines each)\n- scoring: object with keys (relevance, clarity, format, overall) values 0-10\n- improved_resume: string containing a short improved version of the resume\n- highlights: list of keywords found or suggested to add\n\nRole: "

/-- The prompt text between the role and the job description. -/
def promptDescLabel : String := "\nJob description: "

/-- The prompt text between the job description and the resume. -/
def promptResumeLabel : String := "\n\nResume Text:\n"

/-- The prompt f-string: the fixed instruction block, then the role, the
job description (the literal `None` when the description is empty, from
Python's `job_desc if job_desc else "None"`), and the resume text, each
interpolated verbatim. -/
def generate_prompt_for_llm (resume_text job_role job_desc : String) : String :=
  promptIntro ++ job_role ++ promptDescLabel ++
    (if job_desc = "" then "None" else job_desc) ++
    promptResumeLabel ++ resume_text ++ "\n"

/-- Substring containment (`sub in hay` for the claims about the prompt),
expressed on the underlying character lists. -/
def containsStr (hay sub : String) : Prop :=
  ∃ pre post, hay.data = pre ++ sub.data ++ post

/-! ## `extract_text_from_pdf` (app.py lines 25–35)

The external PDF library is abstracted as the outcome it hands this
function: either the `PdfReader` constructor / page iteration raises
(`invalid`), or it yields a list of per-page `extract_text()` results,
each a string or `None`. -/

/-- Abstracted input to `extract_text_from_pdf`. -/
inductive PdfInput where
  | invalid : PdfInput
  | pages (ps : List (Option String)) : PdfInput

/-- The `texts` accumulation loop: keep each page's text `p` only when
Python's `if p:` holds, i.e. `p` is neither `None` nor empty. -/
def collectTexts : List (Option String) → List String
  | [] => []
  | p :: rest =>
    match p with
    | some t => if t = "" then collectTexts rest else t :: collectTexts rest
    | none => collectTexts rest

/-- Python `str.strip()` restricted to ASCII whitespace. -/
def pyStrip (s : String) : String :=
  String.mk (((s.data.dropWhile isWsChar).reverse.dropWhile isWsChar).reverse)

/-- `extract_text_from_pdf`: join the kept page texts with blank lines and
strip the result; any exception from the PDF library degrades to `""`. -/
def extract_text_from_pdf : PdfInput → String
  | .invalid => ""
  | .pages ps => pyStrip (String.intercalate "\n\n" (collectTexts ps))

/-! ## The Analyze action (app.py lines 164–183)

The remote model is abstracted as an oracle from the prompt to either a
raw reply (`Except.ok`) or a raised transport/API error (`Except.error`).
The outcome records the validation flag (`st.error` on missing inputs),
the displayed feedback object, and how many provider calls were made. -/

/-- Outcome of one press of the Analyze button. -/
structure AnalyzeOutcome where
  validation_error : Bool
  result : Option Json
  provider_calls : Nat

/-- Python truthiness of `openai.api_key` (`os.getenv` result): falsy when
the variable is unset (`None`) or empty. -/
def pyTruthyKey : Option String → Bool
  | none => false
  | some s => s != ""

/-- The Analyze branch: validation guard (`not resume_text or not
job_role`), then the mock branch (`use_mock or not openai.api_key`), then
the live path — prompt, one provider call, parse, truthiness-gated
selection (`result = parsed if parsed else fallback_mock_feedback(...)`) —
with the `except` clause falling back and never re-calling. -/
def analyze (resume_text job_role job_desc : String) (use_mock : Bool)
    (api_key : Option String) (provider : String → Except String String) :
    AnalyzeOutcome :=
  if resume_text = "" ∨ job_role = "" then
    { validation_error := true, result := none, provider_calls := 0 }
  else if use_mock || !pyTruthyKey api_key then
    { validation_error := false,
      result := some (fallback_mock_feedback resume_text job_role job_desc),
      provider_calls := 0 }
  else
    match provider (generate_prompt_for_llm resume_text job_role job_desc) with
    | .ok raw_text =>
      { validation_error := false,
        result := some
          (match parse_json_from_model raw_text with
           | some v =>
             if pyTruthy v then v
             else fallback_mock_feedback resume_text job_role job_desc
           | none => fallback_mock_feedback resume_text job_role job_desc),
        provider_calls := 1 }
    | .error _ =>
      { validation_error := false,
        result := some (fallback_mock_feedback resume_text job_role job_desc),
        provider_calls := 1 }

/-! ## `create_pdf_from_text` (app.py lines 93–115)

The body loop is `for line in text.split("\n"): wrapped =
textwrap.wrap(line, width=95); if not wrapped: pdf.ln(5); for w in wrapped:
pdf.multi_cell(0, 6, w)`.  We model the emitted document body as the list
of paragraph rows and blank gaps; the title row, fonts, page breaks and
Latin-1 encoding belong to the external `fpdf` library and are outside the
model.  `textwrap.wrap` is modelled at its default settings (`expand_tabs`,
`replace_whitespace`, `drop_whitespace`, `break_long_words`; the
`break_on_hyphens` refinement, which only moves break positions inside
hyphenated words and never adds or removes characters, is not modelled). -/

/-- The fixed wrap column width passed at the call site. -/
def wrapWidth : Nat := 95

/-- Python `str.expandtabs()` (tabsize 8): a tab becomes spaces up to the
next multiple of 8; newline and carriage return reset the column. -/
def expandtabsGo : List Char → Nat → List Char
  | [], _ => []
  | c :: rest, col =>
    if c == '\t' then
      let k := 8 - col % 8
      List.replicate k ' ' ++ expandtabsGo rest (col + k)
    else if c == '\n' || c == '\r' then c :: expandtabsGo rest 0
    else c :: expandtabsGo rest (col + 1)

/-- `TextWrapper._munge_whitespace`: expand tabs, then replace each ASCII
whitespace character by a space. -/
def munge (l : List Char) : List Char :=
  (expandtabsGo l 0).map (fun c => if isWsChar c then ' ' else c)

/-- Split into maximal runs of spaces / non-spaces
(`TextWrapper._split` on munged text, where all whitespace is `' '`). -/
def splitRunsGo : Nat → List Char → List (List Char)
  | 0, _ => []
  | _ + 1, [] => []
  | fuel + 1, c :: rest =>
    ((c :: rest).takeWhile (fun x => (x == ' ') == (c == ' '))) ::
      splitRunsGo fuel ((c :: rest).dropWhile (fun x => (x == ' ') == (c == ' ')))

/-- Split a munged line into chunks. -/
def splitRuns (l : List Char) : List (List Char) :=
  splitRunsGo l.length l

/-- A chunk that Python's `chunk.strip() == ''` holds of: all spaces
(munged text has no other whitespace). -/
def isSpaceRun (l : List Char) : Bool := l.all (· == ' ')

/-- Total character count of a chunk list. -/
def lenSum (chunks : List (List Char)) : Nat := (chunks.map List.length).sum

/-- The greedy inner loop of `_wrap_chunks`: move chunks into the current
line while the accumulated length stays within the width. -/
def greedyTake : List (List Char) → Nat → List (List Char) × List (List Char)
  | [], _ => ([], [])
  | c :: rest, acc =>
    if acc + c.length ≤ wrapWidth then
      let (t, r) := greedyTake rest (acc + c.length)
      (c :: t, r)
    else ([], c :: rest)

/-- The leading-whitespace drop of `_wrap_chunks` (`drop_whitespace`):
delete a whitespace chunk at the front, but only once at least one line
has already been emitted. -/
def dropLeadingWs (hasLines : Bool) (chunks : List (List Char)) :
    List (List Char) :=
  match chunks with
  | c :: rest => if hasLines && isSpaceRun c then rest else chunks
  | [] => []

/-- `_handle_long_word` with `break_long_words`: when the next chunk is
longer than the full width, cut off as much as still fits on the current
line and leave the remainder as the next chunk. -/
def handleLongWord (cur rest : List (List Char)) :
    List (List Char) × List (List Char) :=
  match rest with
  | c :: rs =>
    if c.length > wrapWidth then
      (cur ++ [c.take (wrapWidth - lenSum cur)],
        c.drop (wrapWidth - lenSum cur) :: rs)
    else (cur, rest)
  | [] => (cur, rest)

/-- The trailing-whitespace drop of `_wrap_chunks` (`drop_whitespace`):
delete the current line's last chunk when it is all whitespace. -/
def dropTrailingWs (cur : List (List Char)) : List (List Char) :=
  match cur.getLast? with
  | some last => if isSpaceRun last then cur.dropLast else cur
  | none => cur

/-- One iteration of the `_wrap_chunks` outer loop: optionally drop a
leading whitespace chunk, fill the current line greedily, break a too-long
head chunk, drop a trailing whitespace piece, and emit the line if
anything remains.  Returns the emitted line (if any), the updated
`lines`-nonempty flag, and the remaining chunks. -/
def wrapStep (hasLines : Bool) (chunks : List (List Char)) :
    Option (List Char) × Bool × List (List Char) :=
  let chunks1 := dropLeadingWs hasLines chunks
  let (cur, rest) := greedyTake chunks1 0
  let (cur2, rest2) := handleLongWord cur rest
  let cur3 := dropTrailingWs cur2
  if cur3.isEmpty then (none, hasLines, rest2)
  else (some cur3.flatten, true, rest2)

/-- The `_wrap_chunks` outer loop.  Each iteration strictly shrinks
`lenSum chunks + chunks.length`, so the fuel supplied by `textwrap_wrap`
never runs out. -/
def wrapChunksGo : Nat → Bool → List (List Char) → List (List Char)
  | 0, _, _ => []
  | fuel + 1, hasLines, chunks =>
    match chunks with
    | [] => []
    | _ :: _ =>
      match wrapStep hasLines chunks with
      | (some ln, h2, rest) => ln :: wrapChunksGo fuel h2 rest
      | (none, h2, rest) => wrapChunksGo fuel h2 rest

/-- Python `textwrap.wrap(line, width=95)` at default settings. -/
def textwrap_wrap (line : String) : List String :=
  let chunks := splitRuns (munge line.data)
  (wrapChunksGo (lenSum chunks + chunks.length + 1) false chunks).map String.mk

/-- One row of the rendered PDF body: a wrapped paragraph cell
(`pdf.multi_cell`) or a blank vertical gap (`pdf.ln(5)`). -/
inductive PdfRow where
  | para (s : String) : PdfRow
  | gap : PdfRow
  deriving DecidableEq

/-- Python `text.split("\n")`, accumulating the current line in reverse:
splitting the empty string gives `[""]`, and every newline separates,
including a trailing one. -/
def splitLinesGo : List Char → List Char → List String
  | acc, [] => [String.mk acc.reverse]
  | acc, c :: rest =>
    if c == '\n' then String.mk acc.reverse :: splitLinesGo [] rest
    else splitLinesGo (c :: acc) rest

/-- Python `text.split("\n")`. -/
def splitLines (text : String) : List String := splitLinesGo [] text.data

/-- The document body emitted by `create_pdf_from_text`: for each line of
the input, its wrapped segments as paragraph rows, or a blank gap when
wrapping yields nothing. -/
def create_pdf_from_text (text : String) : List PdfRow :=
  (splitLines text).flatMap (fun line =>
    let wrapped := textwrap_wrap line
    if wrapped.isEmpty then [PdfRow.gap] else wrapped.map PdfRow.para)

/-- Non-whitespace characters of a character list, in order. -/
def filterNW (l : List Char) : List Char := l.filter (fun c => !(isWsChar c))

/-- Termination measure of the `_wrap_chunks` loop: total characters plus
number of chunks. -/
def chunksMeasure (chunks : List (List Char)) : Nat :=
  lenSum chunks + chunks.length

/-! ## Theorems -/

/-- C1: for every reply text that contains well-formed JSON as a contiguous
substring bounded by the text's first opening brace and its last closing
brace, `parse_json_from_model` returns that substring's decoded value. -/
theorem parse_json_from_model_extracts (text : String) (s e : Nat) (v : Json)
    (hs : strFindIdx text lbrace = some s)
    (he : strRfindIdx text rbrace = some e)
    (hv : json_loads (pySlice text s (e + 1)) = some v) :
    parse_json_from_model text = some v := by
  unfold parse_json_from_model
  rw [hs, he]
  exact hv

/-- Witness for C1: a concrete reply with prose around a JSON object. -/
theorem parse_json_from_model_extracts_witness :
    parse_json_from_model "Result: \x7b\"a\": 1\x7d!" =
      some (.obj [("a", .num 1)]) :=
  parse_json_from_model_extracts "Result: \x7b\"a\": 1\x7d!" 8 15
    (.obj [("a", .num 1)]) rfl rfl rfl

/-- C2: `parse_json_from_model` is total (the embedding returns an `Option`
and can raise nothing), and it returns `none` exactly when the text has no
opening brace, or no closing brace, or the substring from the first opening
brace to the last closing brace fails strict JSON decoding; when it returns
a value, that value is the strict decoding of that exact substring, never a
partial or merged object. -/
theorem parse_json_from_model_none_iff (text : String) :
    (parse_json_from_model text = none ↔
      strFindIdx text lbrace = none ∨ strRfindIdx text rbrace = none ∨
        ∃ s e, strFindIdx text lbrace = some s ∧
          strRfindIdx text rbrace = some e ∧
          json_loads (pySlice text s (e + 1)) = none) ∧
      ∀ v, parse_json_from_model text = some v →
        ∃ s e, strFindIdx text lbrace = some s ∧
          strRfindIdx text rbrace = some e ∧
          json_loads (pySlice text s (e + 1)) = some v := by
  unfold parse_json_from_model
  rcases h1 : strFindIdx text lbrace with _ | s
  · simp
  · rcases h2 : strRfindIdx text rbrace with _ | e
    · simp
    · simp

/-- C3: with non-empty resume and role, whenever mock mode is on or the API
credential is falsy (absent or empty), the Analyze action displays exactly
the fixed fallback payload, makes no provider call, and the payload's
`highlights` list ends with the supplied job role. -/
theorem analyze_mock_mode (resume role desc : String) (use_mock : Bool)
    (key : Option String) (provider : String → Except String String)
    (hres : resume ≠ "") (hrole : role ≠ "")
    (hmock : use_mock = true ∨ pyTruthyKey key = false) :
    analyze resume role desc use_mock key provider =
      { validation_error := false,
        result := some (fallback_mock_feedback resume role desc),
        provider_calls := 0 } ∧
      ∃ hl, objLookup (fallback_mock_feedback resume role desc) "highlights" =
          some (.arr hl) ∧ hl.getLast? = some (.str role) := by
  have hcond : (use_mock || !pyTruthyKey key) = true := by
    rcases hmock with h | h <;> simp [h]
  constructor
  · unfold analyze
    simp [hres, hrole, hcond]
  · exact ⟨[.str "Python", .str "SQL", .str "A/B testing", .str role], rfl, rfl⟩

/-- Witness for C3: the spec's scenario — resume `Experienced engineer.`,
role `Backend Engineer`, mock mode on. -/
theorem analyze_mock_mode_witness :
    analyze "Experienced engineer." "Backend Engineer" "" true none
        (fun _ => .ok "") =
      { validation_error := false,
        result := some
          (fallback_mock_feedback "Experienced engineer." "Backend Engineer" ""),
        provider_calls := 0 } ∧
      ∃ hl, objLookup
          (fallback_mock_feedback "Experienced engineer." "Backend Engineer" "")
          "highlights" = some (.arr hl) ∧
        hl.getLast? = some (.str "Backend Engineer") :=
  analyze_mock_mode "Experienced engineer." "Backend Engineer" "" true none
    (fun _ => .ok "") (by decide) (by decide) (Or.inl rfl)

/-- C4: if the provider call raises, the exception is caught and the
displayed result is the fallback payload for the same inputs; no path makes
more than one provider call, and every non-validation path ends with a
renderable result. -/
theorem analyze_provider_error (resume role desc e : String) (use_mock : Bool)
    (key : Option String) (provider : String → Except String String)
    (hp : provider (generate_prompt_for_llm resume role desc) = .error e) :
    (analyze resume role desc use_mock key provider).provider_calls ≤ 1 ∧
      ((analyze resume role desc use_mock key provider).validation_error = true ∨
        (analyze resume role desc use_mock key provider).result ≠ none) ∧
      ((analyze resume role desc use_mock key provider).provider_calls = 1 →
        (analyze resume role desc use_mock key provider).result =
          some (fallback_mock_feedback resume role desc)) := by
  unfold analyze
  split
  · simp
  · split
    · simp
    · rw [hp]
      simp

/-- Witness for C4: a provider that raises a transport error. -/
theorem analyze_provider_error_witness :
    (analyze "r" "x" "" false (some "k") (fun _ => .error "boom")).provider_calls ≤ 1 ∧
      ((analyze "r" "x" "" false (some "k")
          (fun _ => .error "boom")).validation_error = true ∨
        (analyze "r" "x" "" false (some "k") (fun _ => .error "boom")).result ≠ none) ∧
      ((analyze "r" "x" "" false (some "k") (fun _ => .error "boom")).provider_calls = 1 →
        (analyze "r" "x" "" false (some "k") (fun _ => .error "boom")).result =
          some (fallback_mock_feedback "r" "x" "")) :=
  analyze_provider_error "r" "x" "" "boom" false (some "k")
    (fun _ => .error "boom") rfl

/-- C5: when the resume text or the job role is empty, the Analyze action
surfaces the validation error, makes no provider call, and produces no
result. -/
theorem analyze_validation_error (resume role desc : String) (use_mock : Bool)
    (key : Option String) (provider : String → Except String String)
    (h : resume = "" ∨ role = "") :
    analyze resume role desc use_mock key provider =
      { validation_error := true, result := none, provider_calls := 0 } := by
  unfold analyze
  rw [if_pos h]

/-- Witness for C5: both the empty-resume and the empty-role case. -/
theorem analyze_validation_error_witness :
    analyze "" "Backend Engineer" "" false (some "k") (fun _ => .ok "") =
        { validation_error := true, result := none, provider_calls := 0 } ∧
      analyze "Experienced engineer." "" "" false (some "k") (fun _ => .ok "") =
        { validation_error := true, result := none, provider_calls := 0 } :=
  ⟨analyze_validation_error "" "Backend Engineer" "" false (some "k")
      (fun _ => .ok "") (Or.inl rfl),
    analyze_validation_error "Experienced engineer." "" "" false (some "k")
      (fun _ => .ok "") (Or.inr rfl)⟩

/-- C6: the fallback payload is identical across any two invocations that
share the same job role, regardless of resume text and job description, and
its `highlights` list contains the supplied job role verbatim. -/
theorem fallback_mock_feedback_role_determined (r1 d1 r2 d2 role : String) :
    fallback_mock_feedback r1 role d1 = fallback_mock_feedback r2 role d2 ∧
      ∃ hl, objLookup (fallback_mock_feedback r1 role d1) "highlights" =
          some (.arr hl) ∧ Json.str role ∈ hl := by
  refine ⟨rfl,
    ⟨[.str "Python", .str "SQL", .str "A/B testing", .str role], rfl, ?_⟩⟩
  simp

/-- C7: when the model reply's brace-bounded substring decodes to a falsy
JSON value (such as the empty object), the orchestrator displays the
fallback payload, not the parsed value, because the parsed result is
selected only when truthy. -/
theorem analyze_falsy_parse_falls_back (resume role desc reply : String)
    (key : Option String) (v : Json)
    (hres : resume ≠ "") (hrole : role ≠ "") (hkey : pyTruthyKey key = true)
    (hparse : parse_json_from_model reply = some v)
    (hfalsy : pyTruthy v = false) :
    (analyze resume role desc false key (fun _ => .ok reply)).result =
      some (fallback_mock_feedback resume role desc) := by
  unfold analyze
  simp [hres, hrole, hkey, hparse, hfalsy]

/-- Witness for C7: a reply that is exactly the empty object. -/
theorem analyze_falsy_parse_falls_back_witness :
    (analyze "r" "x" "" false (some "k") (fun _ => .ok "\x7b\x7d")).result =
      some (fallback_mock_feedback "r" "x" "") :=
  analyze_falsy_parse_falls_back "r" "x" "" "\x7b\x7d" (some "k") (.obj [])
    (by decide) (by decide) rfl rfl rfl

/-- C8: the prompt embeds the fixed instruction block and the three inputs
verbatim as substrings, with the job-description slot rendering literally
as `None` when the description is empty; the resume text is embedded
unmodified whatever its size. -/
theorem generate_prompt_for_llm_contains (resume role desc : String) :
    containsStr (generate_prompt_for_llm resume role desc) promptIntro ∧
      containsStr (generate_prompt_for_llm resume role desc) role ∧
      containsStr (generate_prompt_for_llm resume role desc)
        (if desc = "" then "None" else desc) ∧
      containsStr (generate_prompt_for_llm resume role desc) resume := by
  unfold generate_prompt_for_llm containsStr
  refine ⟨⟨[], (role ++ promptDescLabel ++
      (if desc = "" then "None" else desc) ++ promptResumeLabel ++
      resume ++ "\n").data, ?_⟩,
    ⟨promptIntro.data, (promptDescLabel ++
      (if desc = "" then "None" else desc) ++ promptResumeLabel ++
      resume ++ "\n").data, ?_⟩,
    ⟨(promptIntro ++ role ++ promptDescLabel).data,
      (promptResumeLabel ++ resume ++ "\n").data, ?_⟩,
    ⟨(promptIntro ++ role ++ promptDescLabel ++
      (if desc = "" then "None" else desc) ++ promptResumeLabel).data,
      ("\n" : String).data, ?_⟩⟩ <;>
  simp [String.data_append]

/-- Witness for C8: the concrete scenario inputs with an absent (empty)
job description. -/
theorem generate_prompt_for_llm_contains_witness :
    containsStr
        (generate_prompt_for_llm "Experienced engineer." "Backend Engineer" "")
        promptIntro ∧
      containsStr
        (generate_prompt_for_llm "Experienced engineer." "Backend Engineer" "")
        "Backend Engineer" ∧
      containsStr
        (generate_prompt_for_llm "Experienced engineer." "Backend Engineer" "")
        (if "" = "" then "None" else "") ∧
      containsStr
        (generate_prompt_for_llm "Experienced engineer." "Backend Engineer" "")
        "Experienced engineer." :=
  generate_prompt_for_llm_contains "Experienced engineer." "Backend Engineer" ""

/-! ### Conservation of non-whitespace content through `textwrap_wrap`

The wrap algorithm only moves chunks around, splits chunks, and drops
all-whitespace chunks, so the non-whitespace characters of the output,
in order, are exactly those of the input line. -/

theorem filterNW_append (a b : List Char) :
    filterNW (a ++ b) = filterNW a ++ filterNW b :=
  List.filter_append a b

theorem filterNW_of_spaceRun {l : List Char} (h : isSpaceRun l = true) :
    filterNW l = [] := by
  rw [filterNW, List.filter_eq_nil_iff]
  intro c hc
  have hc' : c = ' ' := by simpa using (List.all_eq_true.mp h) c hc
  subst hc'
  decide

theorem chunksMeasure_append (a b : List (List Char)) :
    chunksMeasure (a ++ b) = chunksMeasure a + chunksMeasure b := by
  simp [chunksMeasure, lenSum]
  omega

theorem greedyTake_append : ∀ (l : List (List Char)) (acc : Nat),
    (greedyTake l acc).1 ++ (greedyTake l acc).2 = l
  | [], _ => rfl
  | c :: rest, acc => by
    rw [greedyTake]
    split
    · have ih := greedyTake_append rest (acc + c.length)
      cases hg : greedyTake rest (acc + c.length) with
      | mk t r =>
        rw [hg] at ih
        simp only [hg]
        simpa using ih
    · rfl

theorem greedyTake_nil_not_fit (c : List Char) (rest : List (List Char))
    (acc : Nat) (h : (greedyTake (c :: rest) acc).1 = []) :
    ¬(acc + c.length ≤ wrapWidth) := by
  intro hle
  rw [greedyTake, if_pos hle] at h
  cases hg : greedyTake rest (acc + c.length) with
  | mk t r =>
    rw [hg] at h
    simp at h

theorem handleLongWord_flatten (cur rest : List (List Char)) :
    (handleLongWord cur rest).1.flatten ++ (handleLongWord cur rest).2.flatten =
      cur.flatten ++ rest.flatten := by
  cases rest with
  | nil => rfl
  | cons c rs =>
    simp only [handleLongWord]
    split
    · simp only [List.flatten_append, List.flatten_cons, List.flatten_nil,
        List.append_nil, List.append_assoc]
      congr 1
      rw [← List.append_assoc, List.take_append_drop]
    · rfl

theorem handleLongWord_measure (cur rest : List (List Char)) :
    chunksMeasure (handleLongWord cur rest).2 ≤ chunksMeasure rest := by
  cases rest with
  | nil => exact Nat.le_refl _
  | cons c rs =>
    simp only [handleLongWord]
    split
    · simp [chunksMeasure, lenSum, List.length_drop]
    · exact Nat.le_refl _

theorem dropLeadingWs_filterNW (h : Bool) (chunks : List (List Char)) :
    filterNW (dropLeadingWs h chunks).flatten = filterNW chunks.flatten := by
  cases chunks with
  | nil => rfl
  | cons c rest =>
    simp only [dropLeadingWs]
    split
    · rename_i hsp
      have hsr : isSpaceRun c = true := by
        simp only [Bool.and_eq_true] at hsp
        exact hsp.2
      simp [filterNW_append, filterNW_of_spaceRun hsr]
    · rfl

theorem dropTrailingWs_filterNW (cur : List (List Char)) :
    filterNW (dropTrailingWs cur).flatten = filterNW cur.flatten := by
  rcases List.eq_nil_or_concat cur with h | ⟨l, a, h⟩
  · subst h; rfl
  · subst h
    simp only [dropTrailingWs, List.concat_eq_append, List.getLast?_concat]
    split
    · rename_i hsp
      rw [List.dropLast_concat]
      simp [List.flatten_append, filterNW_append, filterNW_of_spaceRun hsp]
    · rfl

theorem wrapStep_flatten (hasLines : Bool) (chunks : List (List Char)) :
    filterNW (((wrapStep hasLines chunks).1.getD []) ++
        (wrapStep hasLines chunks).2.2.flatten) =
      filterNW chunks.flatten := by
  simp only [wrapStep]
  cases hg : greedyTake (dropLeadingWs hasLines chunks) 0 with
  | mk cur rest =>
    cases hh : handleLongWord cur rest with
    | mk cur2 rest2 =>
      have hga := greedyTake_append (dropLeadingWs hasLines chunks) 0
      rw [hg] at hga
      have hha := handleLongWord_flatten cur rest
      rw [hh] at hha
      have hd := dropTrailingWs_filterNW cur2
      have hl := dropLeadingWs_filterNW hasLines chunks
      have hchain : filterNW cur2.flatten ++ filterNW rest2.flatten =
          filterNW chunks.flatten := by
        rw [← filterNW_append, hha, ← hl, ← hga]
        simp [List.flatten_append]
      split
      · rename_i hemp
        have hz : filterNW cur2.flatten = [] := by
          rw [← hd, List.isEmpty_iff.mp hemp]
          rfl
        simpa [hz] using hchain
      · rename_i hemp
        simp only [Option.getD_some]
        rw [filterNW_append, hd]
        exact hchain

theorem wrapStep_measure (hasLines : Bool) (c0 : List Char)
    (cs : List (List Char)) :
    chunksMeasure (wrapStep hasLines (c0 :: cs)).2.2 <
      chunksMeasure (c0 :: cs) := by
  simp only [wrapStep]
  cases hg : greedyTake (dropLeadingWs hasLines (c0 :: cs)) 0 with
  | mk cur rest =>
    cases hh : handleLongWord cur rest with
    | mk cur2 rest2 =>
      have hga0 := greedyTake_append (dropLeadingWs hasLines (c0 :: cs)) 0
      rw [hg] at hga0
      have hga : cur ++ rest = dropLeadingWs hasLines (c0 :: cs) := hga0
      have hhm0 := handleLongWord_measure cur rest
      rw [hh] at hhm0
      have hhm : chunksMeasure rest2 ≤ chunksMeasure rest := hhm0
      have hcons : chunksMeasure (c0 :: cs) =
          c0.length + 1 + chunksMeasure cs := by
        simp only [chunksMeasure, lenSum, List.map_cons, List.sum_cons,
          List.length_cons]
        omega
      have key : chunksMeasure rest2 < chunksMeasure (c0 :: cs) := by
        by_cases hdp : (hasLines && isSpaceRun c0) = true
        · have hdl : dropLeadingWs hasLines (c0 :: cs) = cs := by
            simp [dropLeadingWs, hdp]
          rw [hdl] at hga
          have hrest : chunksMeasure rest ≤ chunksMeasure cs := by
            rw [← hga, chunksMeasure_append]
            omega
          omega
        · have hdl : dropLeadingWs hasLines (c0 :: cs) = c0 :: cs := by
            simp only [dropLeadingWs]
            rw [if_neg hdp]
          rw [hdl] at hga
          cases cur with
          | cons x xs =>
            have hcm : 1 ≤ chunksMeasure (x :: xs) := by
              simp only [chunksMeasure, List.length_cons]
              omega
            have hrest : chunksMeasure rest + 1 ≤ chunksMeasure (c0 :: cs) := by
              rw [← hga, chunksMeasure_append]
              omega
            omega
          | nil =>
            have hrest : rest = c0 :: cs := by simpa using hga
            subst hrest
            rw [hdl] at hg
            have hnf := greedyTake_nil_not_fit c0 cs 0 (by rw [hg])
            have hlong : c0.length > wrapWidth := by
              omega
            rw [handleLongWord, if_pos hlong] at hh
            have hsl : wrapWidth - lenSum [] = 95 := rfl
            rw [hsl] at hh
            have hr2 : rest2 = c0.drop 95 :: cs := by
              have := congrArg Prod.snd hh
              simpa using this.symm
            subst hr2
            have hm2 : chunksMeasure (c0.drop 95 :: cs) =
                (c0.length - 95) + 1 + chunksMeasure cs := by
              simp only [chunksMeasure, lenSum, List.map_cons, List.sum_cons,
                List.length_cons, List.length_drop]
              omega
            have hw95 : wrapWidth = 95 := rfl
            omega
      split <;> simpa using key

theorem wrapChunksGo_flatten : ∀ (fuel : Nat) (hasLines : Bool)
    (chunks : List (List Char)), chunksMeasure chunks < fuel →
    filterNW (wrapChunksGo fuel hasLines chunks).flatten =
      filterNW chunks.flatten
  | 0, _, chunks, h => absurd h (Nat.not_lt_zero _)
  | fuel + 1, hasLines, [], _ => by simp [wrapChunksGo]
  | fuel + 1, hasLines, c :: cs, h => by
    have hs := wrapStep_flatten hasLines (c :: cs)
    have hm := wrapStep_measure hasLines c cs
    cases hw : wrapStep hasLines (c :: cs) with
    | mk lnOpt pr =>
      cases pr with
      | mk h2 rest =>
        rw [hw] at hs hm
        have ih := wrapChunksGo_flatten fuel h2 rest
          (by simp at hm; omega)
        cases lnOpt with
        | none =>
          rw [wrapChunksGo, hw]
          rw [ih]
          simpa using hs
        | some ln =>
          rw [wrapChunksGo, hw]
          simp only [List.flatten_cons, filterNW_append, ih]
          simpa [filterNW_append] using hs

theorem splitRunsGo_flatten : ∀ (fuel : Nat) (l : List Char),
    l.length ≤ fuel → (splitRunsGo fuel l).flatten = l
  | 0, l, h => by
    have : l = [] := List.eq_nil_of_length_eq_zero (Nat.le_zero.mp h)
    subst this
    rfl
  | fuel + 1, [], _ => rfl
  | fuel + 1, c :: rest, h => by
    rw [splitRunsGo]
    have hdw : ((c :: rest).dropWhile
        (fun x => (x == ' ') == (c == ' '))).length ≤ fuel := by
      have h1 : (c :: rest).dropWhile (fun x => (x == ' ') == (c == ' ')) =
          rest.dropWhile (fun x => (x == ' ') == (c == ' ')) := by
        rw [List.dropWhile_cons_of_pos]
        simp
      rw [h1]
      calc (rest.dropWhile (fun x => (x == ' ') == (c == ' '))).length
          ≤ rest.length := (List.dropWhile_sublist _).length_le
        _ ≤ fuel := by simpa using h
    have ih := splitRunsGo_flatten fuel _ hdw
    simp only [List.flatten_cons, ih]
    exact List.takeWhile_append_dropWhile _ _

theorem splitRuns_flatten (l : List Char) : (splitRuns l).flatten = l :=
  splitRunsGo_flatten l.length l (Nat.le_refl _)

theorem expandtabsGo_filterNW : ∀ (l : List Char) (col : Nat),
    filterNW (expandtabsGo l col) = filterNW l
  | [], _ => rfl
  | c :: rest, col => by
    rw [expandtabsGo]
    by_cases h1 : (c == '\t') = true
    · rw [if_pos h1]
      have hc : c = '\t' := by simpa using h1
      subst hc
      rw [filterNW_append]
      have hrep : filterNW (List.replicate (8 - col % 8) ' ') = [] := by
        apply filterNW_of_spaceRun
        simp [isSpaceRun, List.all_eq_true]
      rw [hrep, List.nil_append,
        expandtabsGo_filterNW rest (col + (8 - col % 8))]
      have ht : isWsChar '\t' = true := by decide
      simp [filterNW, List.filter_cons, ht]
    · rw [if_neg h1]
      by_cases h2 : (c == '\n' || c == '\r') = true
      · rw [if_pos h2]
        have hws : isWsChar c = true := by
          have h2' : c = '\n' ∨ c = '\r' := by simpa using h2
          rcases h2' with hc | hc <;> (subst hc; decide)
        have ih := expandtabsGo_filterNW rest 0
        simp only [filterNW, List.filter_cons, hws, Bool.not_true] at ih ⊢
        simpa using ih
      · rw [if_neg h2]
        have ih := expandtabsGo_filterNW rest (col + 1)
        by_cases h3 : isWsChar c = true
        · simp only [filterNW, List.filter_cons, h3, Bool.not_true] at ih ⊢
          simpa using ih
        · rw [Bool.not_eq_true] at h3
          simp only [filterNW, List.filter_cons, h3, Bool.not_false] at ih ⊢
          simpa using ih

theorem map_spaceize_filterNW (l : List Char) :
    filterNW (l.map (fun c => if isWsChar c then ' ' else c)) = filterNW l := by
  induction l with
  | nil => rfl
  | cons c rest ih =>
    by_cases h : isWsChar c = true
    · simp only [List.map_cons, if_pos h]
      simp only [filterNW, List.filter_cons] at ih ⊢
      have hsp : isWsChar ' ' = true := by decide
      rw [h, hsp]
      simpa [filterNW] using ih
    · simp only [List.map_cons, if_neg h]
      simp only [filterNW, List.filter_cons] at ih ⊢
      rw [Bool.not_eq_true] at h
      rw [h]
      simpa [filterNW] using ih

theorem munge_filterNW (l : List Char) : filterNW (munge l) = filterNW l := by
  rw [munge, map_spaceize_filterNW, expandtabsGo_filterNW]

theorem foldl_append_data : ∀ (ls : List String) (s : String),
    (ls.foldl (· ++ ·) s).data = s.data ++ (ls.map String.data).flatten
  | [], s => by simp
  | t :: rest, s => by
    rw [List.foldl_cons, foldl_append_data rest (s ++ t)]
    simp [String.data_append]

theorem join_map_mk_data (ls : List (List Char)) :
    (String.join (ls.map String.mk)).data = ls.flatten := by
  rw [String.join, foldl_append_data]
  simp only [List.map_map]
  have h : (String.data ∘ String.mk) = id := funext (fun _ => rfl)
  rw [h, List.map_id]
  rfl

theorem textwrap_wrap_filterNW (line : String) :
    filterNW (String.join (textwrap_wrap line)).data = filterNW line.data := by
  simp only [textwrap_wrap]
  rw [join_map_mk_data]
  have hfe : lenSum (splitRuns (munge line.data)) +
      (splitRuns (munge line.data)).length + 1 =
      chunksMeasure (splitRuns (munge line.data)) + 1 := rfl
  rw [hfe, wrapChunksGo_flatten (chunksMeasure (splitRuns (munge line.data)) + 1)
    false (splitRuns (munge line.data)) (Nat.lt_succ_self _)]
  rw [splitRuns_flatten, munge_filterNW]

theorem collectTexts_nil_of_blank : ∀ (l : List (Option String)),
    (∀ p ∈ l, p = none ∨ p = some "") → collectTexts l = []
  | [], _ => rfl
  | p :: rest, h => by
    have hr := collectTexts_nil_of_blank rest
      (fun q hq => h q (List.mem_cons_of_mem _ hq))
    rcases h p (List.mem_cons_self _ _) with hp | hp <;>
      (subst hp; simp [collectTexts, hr])

/-- C9 counterexample: for a single page whose text is `" a "`, the join of
the kept page texts is `" a "`, but `extract_text_from_pdf` returns the
stripped string `"a"` — the function strips the joined text, which the
claim omits. -/
theorem extract_text_from_pdf_unstripped_cex :
    String.intercalate "\n\n" (collectTexts [some " a "]) = " a " ∧
      extract_text_from_pdf (.pages [some " a "]) = "a" ∧
      extract_text_from_pdf (.pages [some " a "]) ≠
        String.intercalate "\n\n" (collectTexts [some " a "]) :=
  ⟨rfl, rfl, by decide⟩

/-- C9 (amended): `extract_text_from_pdf` never raises (it is a total
function); it returns the whitespace-stripped double-newline join of the
page texts kept by the `if p:` filter, and it returns the empty string when
extraction fails or when no page yields text. -/
theorem extract_text_from_pdf_amended (ps : List (Option String))
    (h : ∀ p ∈ ps, p = none ∨ p = some "") :
    extract_text_from_pdf (.pages ps) = "" ∧
      extract_text_from_pdf .invalid = "" ∧
      ∀ qs, extract_text_from_pdf (.pages qs) =
        pyStrip (String.intercalate "\n\n" (collectTexts qs)) := by
  refine ⟨?_, rfl, fun qs => rfl⟩
  show pyStrip (String.intercalate "\n\n" (collectTexts ps)) = ""
  rw [collectTexts_nil_of_blank ps h]
  rfl

/-- Witness for C9 (amended): a failed page and an empty page. -/
theorem extract_text_from_pdf_amended_witness :
    extract_text_from_pdf (.pages [none, some ""]) = "" ∧
      extract_text_from_pdf .invalid = "" ∧
      ∀ qs, extract_text_from_pdf (.pages qs) =
        pyStrip (String.intercalate "\n\n" (collectTexts qs)) :=
  extract_text_from_pdf_amended [none, some ""] (by decide)

/-- C10 counterexample: for the text `"hi "` (one line with a trailing
space), the rendered body is the single paragraph `"hi"`, and the wrapped
segments concatenate to `"hi"`, not to the line's original content
`"hi "` — `textwrap.wrap` drops whitespace at segment and line
boundaries. -/
theorem create_pdf_from_text_roundtrip_cex :
    create_pdf_from_text "hi " = [PdfRow.para "hi"] ∧
      String.join (textwrap_wrap "hi ") = "hi" ∧
      String.join (textwrap_wrap "hi ") ≠ "hi " :=
  ⟨rfl, rfl, by decide⟩

/-- C10 (amended): rendering a text block with `create_pdf_from_text`
emits, for each input line, exactly its wrapped segments (word-wrap at
width 95) as paragraph rows of the document; the segments of each line
concatenate back to that line's content up to whitespace — the
non-whitespace characters are preserved verbatim and in order, while
whitespace at wrap points and line edges may be dropped or normalised —
and an empty input line emits a blank vertical gap instead of a
paragraph. -/
theorem create_pdf_from_text_roundtrip (text line : String)
    (h : line ∈ splitLines text) :
    (∀ s ∈ textwrap_wrap line, PdfRow.para s ∈ create_pdf_from_text text) ∧
      filterNW (String.join (textwrap_wrap line)).data = filterNW line.data ∧
      (line = "" → textwrap_wrap line = [] ∧
        PdfRow.gap ∈ create_pdf_from_text text) := by
  refine ⟨?_, textwrap_wrap_filterNW line, ?_⟩
  · intro s hs
    rw [create_pdf_from_text, List.mem_flatMap]
    refine ⟨line, h, ?_⟩
    have hne : (textwrap_wrap line).isEmpty = false := by
      cases hw : textwrap_wrap line with
      | nil => rw [hw] at hs; cases hs
      | cons a as => rfl
    simp only [hne, Bool.false_eq_true, if_false]
    exact List.mem_map_of_mem _ hs
  · intro hl
    subst hl
    refine ⟨rfl, ?_⟩
    rw [create_pdf_from_text, List.mem_flatMap]
    exact ⟨"", h, by decide⟩

/-- Witness for C10 (amended): the single-line text `"hello world"`. -/
theorem create_pdf_from_text_roundtrip_witness :
    (∀ s ∈ textwrap_wrap "hello world",
        PdfRow.para s ∈ create_pdf_from_text "hello world") ∧
      filterNW (String.join (textwrap_wrap "hello world")).data =
        filterNW ("hello world" : String).data ∧
      (("hello world" : String) = "" → textwrap_wrap "hello world" = [] ∧
        PdfRow.gap ∈ create_pdf_from_text "hello world") :=
  create_pdf_from_text_roundtrip "hello world" "hello world" (by decide)

end ResumeReview
